import Mathlib

/-!
Verification of the catalog-update pipeline in scripts/update-games.py.

The script fetches a denylist of bad words and a catalog of detectable
applications, filters catalog records whose lowercased name contains a
denylist token, selects one Windows executable per remaining record via a
two-stage fallback, and writes the projected records to games.v2.json.

The definitions below are a shallow embedding of that script: Python strings
become Lean String, Python lists become Lean List, the module-level for loop
becomes a fold over an explicit pipeline state, and fallible key access on
untyped JSON records becomes an Except computation over records with
optional fields.
-/

/-- Python str.lower, modelled for the basic latin range: lowercases every
character of the string (Char.toLower only affects A..Z, as does Python
lower on ASCII input). -/
def strLower (s : String) : String :=
  ⟨s.data.map Char.toLower⟩

/-- Python str.strip, modelled for ASCII whitespace: removes whitespace
characters from both ends of the string. -/
def strTrim (s : String) : String :=
  ⟨((s.data.dropWhile Char.isWhitespace).reverse.dropWhile Char.isWhitespace).reverse⟩

/-- Helper for strContains: does the needle occur as a prefix of some
suffix of the haystack. -/
def strContainsAux (needle : List Char) : List Char → Bool
  | [] => needle.isPrefixOf []
  | c :: cs => needle.isPrefixOf (c :: cs) || strContainsAux needle cs

/-- Python substring membership test, as in the expression
word in name_lower: true iff needle occurs contiguously inside hay
(the empty needle occurs in every string, matching Python). -/
def strContains (hay needle : String) : Bool :=
  strContainsAux needle.data hay.data

/-- Helper for splitlines: cut a character list at each newline, the
characters of the current segment being accumulated in reverse. -/
def splitlinesAux : List Char → List Char → List String
  | [], acc => [⟨acc.reverse⟩]
  | c :: cs, acc =>
      if c = '\n' then ⟨acc.reverse⟩ :: splitlinesAux cs []
      else splitlinesAux cs (c :: acc)

/-- Python str.splitlines, modelled for newline-delimited text (the denylist
resource is plain text with one term per line): splits on the newline
character, without producing a trailing empty line for text that ends in a
newline, and producing no lines at all for the empty string. -/
def splitlines (s : String) : List String :=
  if s.data.getLast? = some '\n' then (splitlinesAux s.data []).dropLast
  else if s.data = [] then []
  else splitlinesAux s.data []

/-- The badwords list built at lines 23-27 of the script:
line.strip().lower() for each line of the fetched text whose stripped form
is non-empty. -/
def buildBadwords (text : String) : List String :=
  ((splitlines text).filter (fun line => strTrim line != "")).map
    (fun line => strLower (strTrim line))

/-- One entry of a record's executables array, as the script reads it:
the keys os, name and is_launcher. -/
structure ExecutableRecord where
  os : String
  name : String
  is_launcher : Bool
deriving DecidableEq, Repr

/-- One record of the detectable-applications catalog, as the script reads
it: the keys name and executables. -/
structure ApplicationRecord where
  name : String
  executables : List ExecutableRecord
deriving DecidableEq, Repr

/-- One output entry appended to the games list at lines 57-62. -/
structure ProjectedGame where
  name : String
  exe : String
deriving DecidableEq, Repr

/-- The predicate of the platform check and of the second next(...) call:
the inline lambda x.os == "win32" of lines 43 and 53. -/
def isWin32 (x : ExecutableRecord) : Bool :=
  x.os == "win32"

/-- The predicate of the first next(...) call: the inline condition
x.os == "win32" and not x.is_launcher of lines 47-48. -/
def winNonLauncher (x : ExecutableRecord) : Bool :=
  x.os == "win32" && !x.is_launcher

/-- The two-stage executable selection of lines 44-53: the first
non-launcher win32 executable if one exists, otherwise the first win32
executable, otherwise none. -/
def selectExe (executables : List ExecutableRecord) : Option ExecutableRecord :=
  match executables.find? winNonLauncher with
  | some exe => some exe
  | none => executables.find? isWin32

/-- What the loop body of lines 38-62 decides to do with one record. -/
inductive StepResult where
  /-- The record matched the badwords check and is counted as filtered. -/
  | filteredOut : StepResult
  /-- The record has no win32 executable and is skipped silently. -/
  | skipped : StepResult
  /-- The defensive branch of lines 54-56: a warning naming the record is
  printed and the record is skipped. -/
  | warned (name : String) : StepResult
  /-- The record is projected and appended to the games list. -/
  | emitted (g : ProjectedGame) : StepResult
deriving DecidableEq, Repr

/-- The loop body of lines 38-62 for one record, as a decision. -/
def processRecord (badwords : List String) (game : ApplicationRecord) : StepResult :=
  let name_lower := strLower game.name
  if badwords.any (fun word => strContains name_lower word) then
    .filteredOut
  else if game.executables.any isWin32 then
    match selectExe game.executables with
    | some exe => .emitted ⟨game.name, exe.name⟩
    | none => .warned game.name
  else
    .skipped

/-- The accumulator state of the loop: the games list, the filtered
counter, and the warning lines printed so far. -/
structure PipelineState where
  games : List ProjectedGame
  filtered : Nat
  warnings : List String
deriving DecidableEq, Repr

/-- How one step outcome updates the accumulator state, mirroring the
effects of the loop body: continue with filtered += 1, fall through, print
a warning and continue, or append to games. -/
def applyResult (s : PipelineState) (r : StepResult) : PipelineState :=
  match r with
  | .filteredOut => { s with filtered := s.filtered + 1 }
  | .skipped => s
  | .warned n =>
      { s with warnings :=
          s.warnings ++ ["warn: somehow couldn't find valid exe for game " ++ n] }
  | .emitted g => { s with games := s.games ++ [g] }

/-- One iteration of the loop of lines 38-62. -/
def stepRecord (badwords : List String) (s : PipelineState)
    (game : ApplicationRecord) : PipelineState :=
  applyResult s (processRecord badwords game)

/-- The whole loop of lines 35-62: fold the step over the catalog starting
from an empty games list and a zero filtered counter. -/
def runPipeline (badwords : List String) (detectable : List ApplicationRecord) :
    PipelineState :=
  detectable.foldl (stepRecord badwords) ⟨[], 0, []⟩

/-- The contribution of one record to the output games list: one projected
game when the record is emitted, nothing otherwise. -/
def recordOutput (badwords : List String) (game : ApplicationRecord) :
    List ProjectedGame :=
  match processRecord badwords game with
  | .emitted g => [g]
  | _ => []

example : runPipeline []
    [⟨"Foo Bar", [⟨"win32", "foobar.exe", false⟩, ⟨"darwin", "foobar", false⟩]⟩]
    = ⟨[⟨"Foo Bar", "foobar.exe"⟩], 0, []⟩ := by decide

example : runPipeline ["badword"] [⟨"Badword Game", [⟨"win32", "x.exe", false⟩]⟩]
    = ⟨[], 1, []⟩ := by decide

example : buildBadwords "  Foo \n\n bar\n" = ["foo", "bar"] := by decide

/-- Hexadecimal digit character for a nibble, lowercase as Python json
writes it. -/
def hexDigit (n : Nat) : Char :=
  if n < 10 then Char.ofNat (48 + n) else Char.ofNat (87 + n)

/-- Escaping of one character as done by json.dump with ensure_ascii set to
False: quote, backslash and control characters are escaped, every other
character (non-ASCII included) is kept verbatim. -/
def jsonEscapeChar (c : Char) : List Char :=
  if c = '"' then ['\\', '"']
  else if c = '\\' then ['\\', '\\']
  else if c = '\n' then ['\\', 'n']
  else if c = '\t' then ['\\', 't']
  else if c = '\r' then ['\\', 'r']
  else if c = '\x08' then ['\\', 'b']
  else if c = '\x0c' then ['\\', 'f']
  else if c.toNat < 32 then
    ['\\', 'u', '0', '0', hexDigit (c.toNat / 16), hexDigit (c.toNat % 16)]
  else [c]

/-- A JSON string literal for s, in the encoding of json.dump with
ensure_ascii set to False. -/
def jsonString (s : String) : String :=
  ⟨('"' :: s.data.flatMap jsonEscapeChar) ++ ['"']⟩

/-- The serialization of one games entry as json.dump writes it with the
default separators: a two-key object with the keys name and exe. -/
def serializeGame (g : ProjectedGame) : String :=
  "\x7b" ++ jsonString "name" ++ ": " ++ jsonString g.name ++ ", "
    ++ jsonString "exe" ++ ": " ++ jsonString g.exe ++ "\x7d"

/-- The content json.dump writes to games.v2.json at lines 66-67: a JSON
array of the serialized games, comma separated. -/
def serializeGames (gs : List ProjectedGame) : String :=
  "[" ++ String.intercalate ", " (gs.map serializeGame) ++ "]"

example : serializeGames [] = "[]" := by decide

/-- The fatal error conditions of the run: a failed fetch, a body that does
not decode (bad UTF-8 or malformed JSON), or a record missing an expected
key during processing. -/
inductive Err where
  | fetchFailure : Err
  | decodeFailure : Err
  | missingKey : Err
deriving DecidableEq, Repr

/-- An executables entry as decoded from untyped JSON: each key the script
accesses may be absent. -/
structure RawExecutable where
  os : Option String
  name : Option String
  is_launcher : Option Bool
deriving DecidableEq, Repr

/-- A catalog record as decoded from untyped JSON: each key the script
accesses may be absent. -/
structure RawRecord where
  name : Option String
  executables : Option (List RawExecutable)
deriving DecidableEq, Repr

/-- Python subscript access on an untyped JSON object: raises KeyError when
the key is absent, which aborts the run. -/
def getKey : Option α → Except Err α
  | some v => .ok v
  | none => .error .missingKey

/-- Python any over a generator whose element test may raise: tests
elements left to right, stopping at the first true, and propagates the
first raised error. -/
def anyE (p : α → Except Err Bool) : List α → Except Err Bool
  | [] => .ok false
  | x :: xs => do
      let b ← p x
      if b then return true else anyE p xs

/-- Python next(generator, None) over a filtered generator whose element
test may raise: returns the first element passing the test, none when the
list is exhausted, and propagates the first raised error. -/
def findE (p : α → Except Err Bool) : List α → Except Err (Option α)
  | [] => .ok none
  | x :: xs => do
      let b ← p x
      if b then return (some x) else findE p xs

/-- The loop body of lines 38-62 over a raw record, performing every key
access the script performs in the same order, each of which may fail with
a KeyError that aborts the run. The test of the first next(...) call reads
is_launcher only when os equals win32, as the short-circuit and does. -/
def processRawRecord (badwords : List String) (game : RawRecord) :
    Except Err StepResult := do
  let gname ← getKey game.name
  let name_lower := strLower gname
  if badwords.any (fun word => strContains name_lower word) then
    return .filteredOut
  let exes ← getKey game.executables
  let hasWin ← anyE (fun x => do
    let os ← getKey x.os
    return (os == "win32")) exes
  if hasWin then
    let first ← findE (fun x => do
      let os ← getKey x.os
      if os == "win32" then
        let islaunch ← getKey x.is_launcher
        return (!islaunch)
      else
        return false) exes
    let exe ← match first with
      | some e => pure (some e)
      | none => findE (fun x => do
          let os ← getKey x.os
          return (os == "win32")) exes
    match exe with
    | none => return (.warned gname)
    | some e =>
        let exeName ← getKey e.name
        return (.emitted ⟨gname, exeName⟩)
  else
    return .skipped

/-- The loop of lines 35-62 over raw records: the first key error aborts
the whole run, exactly as an uncaught Python exception would. -/
def runRaw (badwords : List String) (catalog : List RawRecord) :
    Except Err PipelineState :=
  catalog.foldlM (fun s g => do
    let r ← processRawRecord badwords g
    return applyResult s r) ⟨[], 0, []⟩

deriving instance DecidableEq for Except

/-- The observable outcome of a whole run: the content written to
games.v2.json, if the write at lines 66-67 was reached at all, and the
final state or the fatal error. -/
structure RunOutcome where
  written : Option String
  result : Except Err PipelineState
deriving DecidableEq, Repr

/-- The whole script, with the two fetch-and-decode steps abstracted as
Except-valued inputs: a fetch or decode failure at lines 23-33 aborts
before the loop, a key error in the loop aborts before the write, and only
a run reaching lines 66-67 writes the serialized games list. -/
def runProgram (bwFetch : Except Err String)
    (catFetch : Except Err (List RawRecord)) : RunOutcome :=
  match bwFetch with
  | .error e => ⟨none, .error e⟩
  | .ok bwText =>
    match catFetch with
    | .error e => ⟨none, .error e⟩
    | .ok catalog =>
      match runRaw (buildBadwords bwText) catalog with
      | .error e => ⟨none, .error e⟩
      | .ok s => ⟨some (serializeGames s.games), .ok s⟩

example : runProgram (.ok "bad\n") (.ok [⟨some "Foo", some [⟨some "win32", some "foo.exe", some false⟩]⟩])
    = ⟨some "[\x7b\"name\": \"Foo\", \"exe\": \"foo.exe\"\x7d]",
       .ok ⟨[⟨"Foo", "foo.exe"⟩], 0, []⟩⟩ := by decide

example : runProgram (.ok "") (.ok [⟨some "Foo", some [⟨none, none, none⟩]⟩])
    = ⟨none, .error .missingKey⟩ := by decide

/-! Helper lemmas about the embedded definitions. -/

lemma string_eq_iff_data (a b : String) : a = b ↔ a.data = b.data := by
  constructor
  · intro h; rw [h]
  · intro h; cases a; cases b; exact congrArg String.mk h

lemma char_toNat_ofNat (n : Nat) (h : n.isValidChar) : (Char.ofNat n).toNat = n := by
  rw [Char.ofNat, dif_pos h]
  rfl

lemma toLower_toLower (c : Char) : c.toLower.toLower = c.toLower := by
  unfold Char.toLower
  by_cases h : 65 ≤ c.toNat ∧ c.toNat ≤ 90
  · rw [if_pos h]
    have hv : (c.toNat + 32).isValidChar := Or.inl (by omega)
    have ht : (Char.ofNat (c.toNat + 32)).toNat = c.toNat + 32 := char_toNat_ofNat _ hv
    rw [if_neg]
    rw [ht]
    omega
  · rw [if_neg h, if_neg h]

lemma strLower_strLower (s : String) : strLower (strLower s) = strLower s := by
  unfold strLower
  apply congrArg String.mk
  show List.map Char.toLower (List.map Char.toLower s.data) = List.map Char.toLower s.data
  rw [List.map_map]
  have h : Char.toLower ∘ Char.toLower = Char.toLower := funext toLower_toLower
  rw [h]

lemma strLower_eq_empty_iff (s : String) : strLower s = "" ↔ s = "" := by
  rw [string_eq_iff_data, string_eq_iff_data]
  simp [strLower]

lemma find?_eq_get_of_first {α : Type} (p : α → Bool) (l : List α) (i : Nat)
    (hi : i < l.length) (hp : p (l.get ⟨i, hi⟩) = true)
    (hmin : ∀ (j : Nat) (hj : j < l.length), j < i → p (l.get ⟨j, hj⟩) = false) :
    l.find? p = some (l.get ⟨i, hi⟩) := by
  induction l generalizing i with
  | nil => exact absurd hi (Nat.not_lt_zero i)
  | cons a t ih =>
    cases i with
    | zero =>
      simp only [List.get] at hp
      simp [List.find?, hp]
    | succ n =>
      have ha : p a = false := hmin 0 (Nat.succ_pos _) (Nat.succ_pos n)
      simp only [List.get] at hp ⊢
      rw [List.find?]
      rw [ha]
      exact ih n (Nat.lt_of_succ_lt_succ hi) hp
        (fun j hj hlt => hmin (j + 1) (Nat.succ_lt_succ hj) (Nat.succ_lt_succ hlt))

lemma find?_eq_find?_filter {α : Type} (p q : α → Bool) (l : List α)
    (himp : ∀ x, p x = true → q x = true) :
    l.find? p = (l.filter q).find? p := by
  induction l with
  | nil => rfl
  | cons a t ih =>
    cases hq : q a with
    | true =>
      cases hp : p a with
      | true => simp [List.filter_cons, hq, List.find?_cons, hp]
      | false => simpa [List.filter_cons, hq, List.find?_cons, hp] using ih
    | false =>
      have hp : p a = false := by
        cases h : p a with
        | false => rfl
        | true => rw [himp a h] at hq; exact absurd hq (by simp)
      simpa [List.filter_cons, hq, List.find?_cons, hp] using ih

lemma processRecord_def (bw : List String) (g : ApplicationRecord) :
    processRecord bw g =
      if bw.any (fun word => strContains (strLower g.name) word) then .filteredOut
      else if g.executables.any isWin32 then
        match selectExe g.executables with
        | some exe => .emitted ⟨g.name, exe.name⟩
        | none => .warned g.name
      else .skipped := rfl

lemma processRecord_eq_emitted {bw : List String} {g : ApplicationRecord}
    {pg : ProjectedGame} (h : processRecord bw g = .emitted pg) :
    ∃ exe, selectExe g.executables = some exe ∧ pg = ⟨g.name, exe.name⟩ := by
  rw [processRecord_def] at h
  by_cases h1 : bw.any (fun word => strContains (strLower g.name) word) = true
  · rw [if_pos h1] at h; exact absurd h (by simp)
  · rw [if_neg h1] at h
    by_cases h2 : g.executables.any isWin32 = true
    · rw [if_pos h2] at h
      cases hsel : selectExe g.executables with
      | some exe =>
        rw [hsel] at h
        exact ⟨exe, rfl, (StepResult.emitted.inj h).symm⟩
      | none => rw [hsel] at h; exact absurd h (by simp)
    · rw [if_neg h2] at h; exact absurd h (by simp)

lemma processRecord_filteredOut_iff (bw : List String) (g : ApplicationRecord) :
    processRecord bw g = .filteredOut
      ↔ bw.any (fun word => strContains (strLower g.name) word) = true := by
  rw [processRecord_def]
  by_cases h1 : bw.any (fun word => strContains (strLower g.name) word) = true
  · simp [h1]
  · rw [if_neg h1]
    constructor
    · intro h
      by_cases h2 : g.executables.any isWin32 = true
      · rw [if_pos h2] at h
        cases hsel : selectExe g.executables with
        | some exe => rw [hsel] at h; exact absurd h (by simp)
        | none => rw [hsel] at h; exact absurd h (by simp)
      · rw [if_neg h2] at h; exact absurd h (by simp)
    · intro h; exact absurd h h1

lemma selectExe_isSome {exes : List ExecutableRecord}
    (h : ∃ x ∈ exes, isWin32 x = true) : ∃ e, selectExe exes = some e := by
  unfold selectExe
  cases h1 : exes.find? winNonLauncher with
  | some e => exact ⟨e, rfl⟩
  | none =>
    cases h2 : exes.find? isWin32 with
    | some e => exact ⟨e, rfl⟩
    | none =>
      obtain ⟨x, hx, hwin⟩ := h
      rw [List.find?_eq_none] at h2
      exact absurd hwin (by simpa using h2 x hx)

lemma stepRecord_games (bw : List String) (s : PipelineState) (g : ApplicationRecord) :
    (stepRecord bw s g).games = s.games ++ recordOutput bw g := by
  unfold stepRecord applyResult recordOutput
  cases processRecord bw g <;> simp

lemma foldl_stepRecord_games (bw : List String) (catalog : List ApplicationRecord) :
    ∀ s : PipelineState,
      (catalog.foldl (stepRecord bw) s).games
        = s.games ++ (catalog.map (recordOutput bw)).flatten := by
  induction catalog with
  | nil => intro s; simp
  | cons g t ih =>
    intro s
    simp only [List.foldl, List.map, List.flatten_cons]
    rw [ih, stepRecord_games, List.append_assoc]

/-! Claim theorems. -/

/-- C1: for every emitted record with at least one non-launcher win32
executable, the emitted exe is the name of the first such executable in
the record's own executable order; if the record's win32 executables are
all launchers, the emitted exe is the name of the first win32 executable
regardless of its launcher flag. -/
theorem exe_selection (bw : List String) (g : ApplicationRecord) (pg : ProjectedGame)
    (hemit : processRecord bw g = .emitted pg) :
    (∀ (i : Nat) (hi : i < g.executables.length),
        winNonLauncher (g.executables.get ⟨i, hi⟩) = true →
        (∀ (j : Nat) (hj : j < g.executables.length), j < i →
          winNonLauncher (g.executables.get ⟨j, hj⟩) = false) →
        pg.exe = (g.executables.get ⟨i, hi⟩).name) ∧
    ((∀ x ∈ g.executables, isWin32 x = true → x.is_launcher = true) →
      ∀ (i : Nat) (hi : i < g.executables.length),
        isWin32 (g.executables.get ⟨i, hi⟩) = true →
        (∀ (j : Nat) (hj : j < g.executables.length), j < i →
          isWin32 (g.executables.get ⟨j, hj⟩) = false) →
        pg.exe = (g.executables.get ⟨i, hi⟩).name) := by
  obtain ⟨exe, hsel, hpg⟩ := processRecord_eq_emitted hemit
  subst hpg
  constructor
  · intro i hi hp hmin
    have hfind := find?_eq_get_of_first winNonLauncher g.executables i hi hp hmin
    unfold selectExe at hsel
    rw [hfind] at hsel
    have hx := Option.some.inj hsel
    rw [← hx]
  · intro hall i hi hp hmin
    have hnone : g.executables.find? winNonLauncher = none := by
      rw [List.find?_eq_none]
      intro x hx hcontra
      rw [winNonLauncher, Bool.and_eq_true] at hcontra
      have hw : isWin32 x = true := hcontra.1
      have hl := hall x hx hw
      rw [hl] at hcontra
      exact absurd hcontra.2 (by simp)
    have hfind := find?_eq_get_of_first isWin32 g.executables i hi hp hmin
    unfold selectExe at hsel
    rw [hnone, hfind] at hsel
    have hx := Option.some.inj hsel
    rw [← hx]

/-- Concrete record used to instantiate the hypothesis-bearing theorems:
its first win32 executable is a launcher and its second is not. -/
def gW : ApplicationRecord :=
  ⟨"Foo", [⟨"darwin", "a", false⟩, ⟨"win32", "launch", true⟩, ⟨"win32", "foo.exe", false⟩]⟩

/-- Witness for C1: on gW the emitted exe is the name of the first
non-launcher win32 executable, at index 2. -/
theorem exe_selection_witness :
    processRecord [] gW = .emitted ⟨"Foo", "foo.exe"⟩ ∧
    (ProjectedGame.mk "Foo" "foo.exe").exe = (gW.executables.get ⟨2, by decide⟩).name :=
  ⟨by decide,
    (exe_selection [] gW ⟨"Foo", "foo.exe"⟩ (by decide)).1 2 (by decide) (by decide)
      (by decide)⟩

/-- C2 counterexample: with denylist zzz, the record named clean with no
executables is excluded from the output (and not counted), yet no denylist
token occurs in its lowercased name, refuting the claimed equivalence
between exclusion from the output and a denylist match. -/
theorem denylist_filter_counterexample :
    (runPipeline ["zzz"] [⟨"clean", []⟩]).games = [] ∧
    (runPipeline ["zzz"] [⟨"clean", []⟩]).filtered = 0 ∧
    (["zzz"] : List String).any (fun word => strContains (strLower "clean") word) = false := by
  decide

/-- C2 (amended): a record is excluded with the filtered-count incremented
if and only if some denylist token occurs as a substring of its lowercased
name, and the filtered-count increments by exactly one for each such record
and for no other record. -/
theorem denylist_filter (bw : List String) (g : ApplicationRecord) (s : PipelineState) :
    ((recordOutput bw g = [] ∧ (stepRecord bw s g).filtered = s.filtered + 1) ↔
      ∃ w ∈ bw, strContains (strLower g.name) w = true) ∧
    ((stepRecord bw s g).filtered
      = if processRecord bw g = .filteredOut then s.filtered + 1 else s.filtered) := by
  have hcount : (stepRecord bw s g).filtered
      = if processRecord bw g = .filteredOut then s.filtered + 1 else s.filtered := by
    cases hres : processRecord bw g <;>
      simp [stepRecord, applyResult, hres]
  refine ⟨⟨?_, ?_⟩, hcount⟩
  · rintro ⟨hout, hinc⟩
    have hfil : processRecord bw g = .filteredOut := by
      by_contra hne
      rw [hcount, if_neg hne] at hinc
      omega
    have hany := (processRecord_filteredOut_iff bw g).1 hfil
    rw [List.any_eq_true] at hany
    obtain ⟨w, hw, hc⟩ := hany
    exact ⟨w, hw, hc⟩
  · rintro ⟨w, hw, hc⟩
    have hfil : processRecord bw g = .filteredOut := by
      rw [processRecord_filteredOut_iff, List.any_eq_true]
      exact ⟨w, hw, hc⟩
    refine ⟨?_, ?_⟩
    · rw [recordOutput, hfil]
    · rw [hcount, if_pos hfil]

/-- C3: a record passing the denylist check with no win32 executable is
skipped entirely: nothing is emitted, no warning is printed, and the
filtered-count does not change. -/
theorem no_win32_skipped (bw : List String) (s : PipelineState) (g : ApplicationRecord)
    (hbad : bw.any (fun word => strContains (strLower g.name) word) = false)
    (hwin : ∀ x ∈ g.executables, x.os ≠ "win32") :
    processRecord bw g = .skipped ∧ stepRecord bw s g = s := by
  have hres : processRecord bw g = .skipped := by
    rw [processRecord_def, if_neg (by rw [hbad]; simp), if_neg]
    rw [List.any_eq_true]
    rintro ⟨x, hx, hw⟩
    rw [isWin32, beq_iff_eq] at hw
    exact hwin x hx hw
  exact ⟨hres, by rw [stepRecord, hres]; rfl⟩

/-- Witness for C3: a clean record with only a darwin executable leaves the
state untouched. -/
theorem no_win32_skipped_witness :
    ((["bad"] : List String).any (fun word => strContains (strLower "Nice") word) = false) ∧
    (∀ x ∈ [ExecutableRecord.mk "darwin" "n" false], x.os ≠ "win32") ∧
    stepRecord ["bad"] ⟨[], 0, []⟩ ⟨"Nice", [⟨"darwin", "n", false⟩]⟩ = ⟨[], 0, []⟩ :=
  ⟨by decide, by decide,
    (no_win32_skipped ["bad"] ⟨[], 0, []⟩ ⟨"Nice", [⟨"darwin", "n", false⟩]⟩
      (by decide) (by decide)).2⟩

/-- C4: the output games list is the input-ordered concatenation of each
record's contribution, and every record contributes at most one projected
game: a stable filter with no re-sorting. -/
theorem output_order_stable (bw : List String) (catalog : List ApplicationRecord) :
    (runPipeline bw catalog).games = (catalog.map (recordOutput bw)).flatten ∧
    ∀ g : ApplicationRecord, (recordOutput bw g).length ≤ 1 := by
  constructor
  · rw [runPipeline, foldl_stepRecord_games]
    rfl
  · intro g
    rw [recordOutput]
    cases processRecord bw g <;> simp

/-- C5: for a record with at least one win32 executable the two-stage
selection always yields an executable, so the defensive warning branch is
unreachable: the step never produces a warned outcome and never appends a
warning line. -/
theorem defensive_branch_unreachable (bw : List String) (s : PipelineState)
    (g : ApplicationRecord) (hwin : ∃ x ∈ g.executables, x.os = "win32") :
    (∀ n, processRecord bw g ≠ .warned n) ∧ (stepRecord bw s g).warnings = s.warnings := by
  have hwin32 : ∃ x ∈ g.executables, isWin32 x = true := by
    obtain ⟨x, hx, hos⟩ := hwin
    exact ⟨x, hx, by rw [isWin32, beq_iff_eq]; exact hos⟩
  have hnotwarn : ∀ n, processRecord bw g ≠ .warned n := by
    intro n
    rw [processRecord_def]
    by_cases h1 : bw.any (fun word => strContains (strLower g.name) word) = true
    · rw [if_pos h1]; simp
    · rw [if_neg h1, if_pos (List.any_eq_true.2 hwin32)]
      obtain ⟨e, he⟩ := selectExe_isSome hwin32
      rw [he]
      simp
  refine ⟨hnotwarn, ?_⟩
  rw [stepRecord]
  cases hres : processRecord bw g with
  | warned n => exact absurd hres (hnotwarn n)
  | filteredOut => rw [applyResult]
  | skipped => rw [applyResult]
  | emitted pg => rw [applyResult]

/-- Witness for C5: gW has a win32 executable and its step appends no
warning line. -/
theorem defensive_branch_unreachable_witness :
    (∃ x ∈ gW.executables, x.os = "win32") ∧
    (stepRecord ["w"] ⟨[], 0, []⟩ gW).warnings = [] :=
  ⟨by decide, (defensive_branch_unreachable ["w"] ⟨[], 0, []⟩ gW (by decide)).2⟩

/-- C6: the denylist builder returns exactly the trimmed, lowercased lines
of the raw text in input-line order with lines empty after trimming
discarded, so every denylist entry is a non-empty lowercase token. -/
theorem badwords_wellformed (text : String) :
    buildBadwords text
      = ((splitlines text).map (fun line => strLower (strTrim line))).filter
          (fun t => t != "") ∧
    ∀ t ∈ buildBadwords text, t ≠ "" ∧ strLower t = t := by
  constructor
  · rw [buildBadwords, List.filter_map]
    congr 1
    apply List.filter_congr
    intro line _
    by_cases h : strTrim line = ""
    · have h0 : ((fun t => t != "") ∘ fun line => strLower (strTrim line)) line
          = (strLower (strTrim line) != "") := rfl
      rw [h0, h]
      decide
    · have h1 : strLower (strTrim line) ≠ "" := fun hc => h ((strLower_eq_empty_iff _).1 hc)
      have ht1 : (strTrim line != "") = true := bne_iff_ne.2 h
      have ht2 : ((fun t => t != "") ∘ fun line => strLower (strTrim line)) line = true :=
        bne_iff_ne.2 h1
      rw [ht1, ht2]
  · intro t ht
    rw [buildBadwords] at ht
    rw [List.mem_map] at ht
    obtain ⟨line, hline, rfl⟩ := ht
    have hq : (strTrim line != "") = true := (List.mem_filter.1 hline).2
    have hne : strTrim line ≠ "" := bne_iff_ne.1 hq
    constructor
    · exact fun hc => hne ((strLower_eq_empty_iff _).1 hc)
    · exact strLower_strLower _

/-- Witness for C6: on a concrete three-line text the entry foo is a
non-empty lowercase token. -/
theorem badwords_wellformed_witness :
    ("foo" ∈ buildBadwords " Foo \n\n bar\n") ∧
    ("foo" : String) ≠ "" ∧ strLower "foo" = "foo" :=
  ⟨by decide, (badwords_wellformed " Foo \n\n bar\n").2 "foo" (by decide)⟩

/-- C7: on any fatal error, whether a failed fetch of either resource, a
decode failure, or a record missing an expected key during the loop, the
run ends in an error and games.v2.json is never written. -/
theorem fatal_abort_no_write (bwFetch : Except Err String)
    (catFetch : Except Err (List RawRecord))
    (h : (∃ e, bwFetch = .error e) ∨ (∃ e, catFetch = .error e) ∨
      (∃ bwText catalog e, bwFetch = .ok bwText ∧ catFetch = .ok catalog ∧
        runRaw (buildBadwords bwText) catalog = .error e)) :
    (runProgram bwFetch catFetch).written = none ∧
    ∃ e, (runProgram bwFetch catFetch).result = .error e := by
  rcases h with ⟨e, he⟩ | ⟨e, he⟩ | ⟨bwText, catalog, e, hbw, hcat, hrun⟩
  · subst he
    exact ⟨rfl, e, rfl⟩
  · subst he
    cases bwFetch with
    | error e2 => exact ⟨rfl, e2, rfl⟩
    | ok bwText => exact ⟨rfl, e, rfl⟩
  · subst hbw
    subst hcat
    constructor
    · simp [runProgram, hrun]
    · exact ⟨e, by simp [runProgram, hrun]⟩

/-- Witness for C7: a failed badwords fetch aborts the run with no file
written, on a concrete catalog. -/
theorem fatal_abort_no_write_witness :
    (∃ e, (Except.error Err.fetchFailure : Except Err String) = .error e) ∧
    (runProgram (.error .fetchFailure) (.ok [])).written = none ∧
    ∃ e, (runProgram (.error .fetchFailure) (.ok [])).result = .error e :=
  ⟨⟨.fetchFailure, rfl⟩,
    fatal_abort_no_write (.error .fetchFailure) (.ok []) (Or.inl ⟨.fetchFailure, rfl⟩)⟩

/-- C8: the pipeline is deterministic in its fetched inputs: identical
denylist text and identical catalog give a byte-identical serialized output
file and the same filtered-count. -/
theorem pipeline_deterministic (bwText bwText2 : String)
    (catalog catalog2 : List ApplicationRecord)
    (hbw : bwText = bwText2) (hcat : catalog = catalog2) :
    serializeGames (runPipeline (buildBadwords bwText) catalog).games
      = serializeGames (runPipeline (buildBadwords bwText2) catalog2).games ∧
    (runPipeline (buildBadwords bwText) catalog).filtered
      = (runPipeline (buildBadwords bwText2) catalog2).filtered := by
  subst hbw
  subst hcat
  exact ⟨rfl, rfl⟩

/-- Witness for C8: two runs on one concrete input agree byte for byte. -/
theorem pipeline_deterministic_witness :
    ("a\n" : String) = "a\n" ∧
    serializeGames (runPipeline (buildBadwords "a\n")
        [⟨"G", [⟨"win32", "g.exe", false⟩]⟩]).games
      = serializeGames (runPipeline (buildBadwords "a\n")
        [⟨"G", [⟨"win32", "g.exe", false⟩]⟩]).games :=
  ⟨rfl, (pipeline_deterministic "a\n" "a\n" [⟨"G", [⟨"win32", "g.exe", false⟩]⟩]
    [⟨"G", [⟨"win32", "g.exe", false⟩]⟩] rfl rfl).1⟩

/-- C9: executable selection depends only on the ordered subsequence of
win32 executables: two executable lists with equal win32 filtrations select
the same executable, and two emitted records over such lists emit the same
exe, regardless of non-win32 executables and their positions. -/
theorem selection_win32_only (e1 e2 : List ExecutableRecord)
    (hfilter : e1.filter isWin32 = e2.filter isWin32) :
    selectExe e1 = selectExe e2 ∧
    ∀ (bw1 bw2 : List String) (g1 g2 : ApplicationRecord) (pg1 pg2 : ProjectedGame),
      g1.executables = e1 → g2.executables = e2 →
      processRecord bw1 g1 = .emitted pg1 → processRecord bw2 g2 = .emitted pg2 →
      pg1.exe = pg2.exe := by
  have himp : ∀ x, winNonLauncher x = true → isWin32 x = true := by
    intro x h
    rw [winNonLauncher, Bool.and_eq_true] at h
    exact h.1
  have hsel : selectExe e1 = selectExe e2 := by
    rw [selectExe, selectExe,
      find?_eq_find?_filter winNonLauncher isWin32 e1 himp,
      find?_eq_find?_filter winNonLauncher isWin32 e2 himp,
      find?_eq_find?_filter isWin32 isWin32 e1 (fun x h => h),
      find?_eq_find?_filter isWin32 isWin32 e2 (fun x h => h),
      hfilter]
  refine ⟨hsel, ?_⟩
  intro bw1 bw2 g1 g2 pg1 pg2 hg1 hg2 hp1 hp2
  obtain ⟨x1, hs1, hpg1⟩ := processRecord_eq_emitted hp1
  obtain ⟨x2, hs2, hpg2⟩ := processRecord_eq_emitted hp2
  rw [hg1] at hs1
  rw [hg2] at hs2
  rw [hsel] at hs1
  rw [hs2] at hs1
  have hx := Option.some.inj hs1
  rw [hpg1, hpg2, hx]

/-- Executable list with a leading darwin entry before the win32 entry. -/
def exListA : List ExecutableRecord := [⟨"darwin", "d", false⟩, ⟨"win32", "w.exe", false⟩]

/-- Executable list with the same win32 entry and a trailing linux entry. -/
def exListB : List ExecutableRecord := [⟨"win32", "w.exe", false⟩, ⟨"linux", "l", false⟩]

/-- Witness for C9: the two concrete lists have equal win32 filtrations and
equal selections. -/
theorem selection_win32_only_witness :
    exListA.filter isWin32 = exListB.filter isWin32 ∧
    selectExe exListA = selectExe exListB :=
  ⟨by decide, (selection_win32_only exListA exListB (by decide)).1⟩

/-- C10: whenever the loop completes without a fatal error the output file
is written, with the serialized games list as its whole content; in
particular the empty catalog still writes the empty JSON array with a
filtered-count of zero. -/
theorem write_on_success :
    (∀ (bwText : String) (catalog : List RawRecord) (s : PipelineState),
        runRaw (buildBadwords bwText) catalog = .ok s →
        runProgram (.ok bwText) (.ok catalog)
          = ⟨some (serializeGames s.games), .ok s⟩) ∧
    runProgram (.ok "") (.ok []) = ⟨some "[]", .ok ⟨[], 0, []⟩⟩ := by
  constructor
  · intro bwText catalog s h
    simp [runProgram, h]
  · decide

/-- Witness for C10: a successful run over the empty catalog writes the
empty JSON array. -/
theorem write_on_success_witness :
    runRaw (buildBadwords "x\n") [] = .ok ⟨[], 0, []⟩ ∧
    runProgram (.ok "x\n") (.ok []) = ⟨some "[]", .ok ⟨[], 0, []⟩⟩ :=
  ⟨by decide, write_on_success.1 "x\n" [] ⟨[], 0, []⟩ (by decide)⟩
